import Mathlib

/-!
Shallow embedding of the procedure/action composition core of the
`elysia-procedures` repository (src/src/utils.ts, src/src/procedure.ts,
src/src/action.ts, first version of each file where several versions are
concatenated).  JavaScript objects are modelled as association lists in
insertion order, the TypeBox validation engine is modelled by `clean` and
`assert` below, asynchronous functions that may throw are modelled as
functions into `Except Err`, and the module-global `WeakMap` request cache
is modelled by explicit state passing: every stateful operation takes the
cache and returns the possibly updated cache next to its result.
-/

deriving instance DecidableEq for Except

namespace Elysia

/-- Field types appearing in the TypeBox object schemas the repository
builds (`Type.String()`, `Type.Number()`, `Type.Boolean()`). -/
inductive FieldType where
  | str
  | num
  | bool
deriving DecidableEq, Repr

/-- Primitive JavaScript values stored in object fields and contexts.
`pReq` is an opaque `Request` handle identified by a number, which is all
the code ever uses a request for (identity in the `WeakMap` cache). -/
inductive Prim where
  | pStr (s : String)
  | pNum (n : Int)
  | pBool (b : Bool)
  | pReq (id : Nat)
deriving DecidableEq, Repr

/-- A raw params/query/body or handler-result value: either `undefined`
or a JavaScript object given by its fields in insertion order. -/
inductive Value where
  | undef
  | obj (fields : List (String × Prim))
deriving DecidableEq, Repr

/-- The value a middleware step function produces: `undefined` (a `void`
return), `null` (the cache sentinel), or an object of context fields. -/
inductive MwResult where
  | undef
  | null
  | obj (fields : List (String × Prim))
deriving DecidableEq, Repr

/-- Failures: a TypeBox validation failure (`Value.Assert` /
`Value.Parse` throwing) or an arbitrary user exception with a message. -/
inductive Err where
  | validation
  | thrown (msg : String)
deriving DecidableEq, Repr

/-- First-match association-list lookup: JavaScript property access
`o[k]`, `Map.get` and `WeakMap.get` (is `none` when the key is absent,
i.e. `undefined`). -/
def jsLookup {κ α : Type} [DecidableEq κ] : List (κ × α) → κ → Option α
  | [], _ => none
  | (k, v) :: rest, key => if k = key then some v else jsLookup rest key

/-- Source `Map.set` / `WeakMap.set`: replace the value at an existing key in
place, otherwise append the new entry at the end. -/
def setA {κ α : Type} [DecidableEq κ] : List (κ × α) → κ → α → List (κ × α)
  | [], k, v => [(k, v)]
  | (k0, v0) :: rest, k, v =>
      if k0 = k then (k, v) :: rest else (k0, v0) :: setA rest k v

/-- JavaScript object spread `\x7b...a, ...b\x7d`: the keys of `a` in
their order, each overridden by `b`'s value when `b` also has the key,
followed by the keys only `b` has, in `b`'s order. -/
def jsSpread {α : Type} (a b : List (String × α)) : List (String × α) :=
  (a.map (fun kv =>
    match jsLookup b kv.1 with
    | some v => (kv.1, v)
    | none => kv))
  ++ b.filter (fun kv => (jsLookup a kv.1).isNone)

/-- A TypeBox object schema (`TObject`): named fields in declaration
order, plus the `additionalProperties` option, `none` when the option was
not given to `Type.Object` and `some false` when the schema was built
with `additionalProperties: false`. -/
structure TObject where
  properties : List (String × FieldType)
  additional : Option Bool
deriving DecidableEq, Repr

/-- Source `merge` from src/src/utils.ts: builds
`Type.Object(\x7b...next.properties, ...(prev ? prev.properties : \x7b\x7d)\x7d,
\x7b additionalProperties: false \x7d)`.  Note the spread order: `prev`'s
properties are spread last. -/
def merge (prev : Option TObject) (next : TObject) : TObject :=
  { properties :=
      jsSpread next.properties
        (match prev with
         | some p => p.properties
         | none => [])
    additional := some false }

/-- Whether a primitive value checks against a field type. -/
def checkPrim : FieldType → Prim → Bool
  | .str, .pStr _ => true
  | .num, .pNum _ => true
  | .bool, .pBool _ => true
  | _, _ => false

/-- TypeBox `Value.Clean` against an object schema: for an object value,
drop every field whose name is not declared in the schema; any other
value is returned unchanged. -/
def clean (s : TObject) (v : Value) : Value :=
  match v with
  | .undef => .undef
  | .obj fs => .obj (fs.filter (fun kv => (jsLookup s.properties kv.1).isSome))

/-- TypeBox `Value.Check` / `Value.Assert` against an object schema: the
value must be an object, every declared field must be present with the
declared type, and when the schema carries `additionalProperties: false`
no undeclared field may be present.  (The schemas of this repository only
ever have the option absent or `false`.) -/
def assert (s : TObject) (v : Value) : Bool :=
  match v with
  | .undef => false
  | .obj fs =>
      (s.properties.all (fun kv =>
        match jsLookup fs kv.1 with
        | some p => checkPrim kv.2 p
        | none => false))
      && (match s.additional with
          | some false => fs.all (fun kv => (jsLookup s.properties kv.1).isSome)
          | _ => true)

/-- TypeBox `Value.Parse` (and the `Value.Clean` + `Value.Assert` pair
used for output validation): clean the value, then assert the cleaned
value, returning the cleaned value or a validation failure. -/
def parse (s : TObject) (v : Value) : Except Err Value :=
  let c := clean s v
  if assert s c then .ok c else .error .validation

/-- Source `schema ? Value.Parse(schema, value) : value` as used by
`Action._execute` for each of params/query/body. -/
def parseOpt (s : Option TObject) (v : Value) : Except Err Value :=
  match s with
  | some sch => parse sch v
  | none => .ok v

/-- The running request context: a JavaScript object, seeded with the
`request` field and grown by spreading middleware results into it. -/
abbrev Context := List (String × Prim)

/-- The argument object passed to every step function, cache-key function
and handler: the current context and the validated params/query/body. -/
structure ProcedureFnArgs where
  ctx : Context
  params : Value
  query : Value
  body : Value

/-- A middleware step function (`ProcedureFn`): may throw, may return
nothing. -/
def StepFn : Type := ProcedureFnArgs → Except Err MwResult

/-- A cache-key function: derives a list of string keys from the input. -/
def KeyFn : Type := ProcedureFnArgs → Except Err (List String)

/-- An action handler (`ActionFn`): may throw, returns the business
result. -/
def ActionFn : Type := ProcedureFnArgs → Except Err Value

/-- Source `Middleware` from src/src/procedure.ts.  `_id` is the
`crypto.randomUUID()` value drawn at construction time; randomness is
modelled by making the identifier an explicit argument of the
constructor site (`ProcedureBuilder.build`). -/
structure Middleware where
  _id : String
  _handler : StepFn
  _keys : Option KeyFn
  name : String

/-- Source `cacheKey` from src/src/procedure.ts:
the string `id ++ ":[" ++ array.join(",") ++ "]"`. -/
def cacheKey (id : String) (array : List String) : String :=
  id ++ ":[" ++ String.intercalate "," array ++ "]"

/-- The module-global `WeakMap<Request, Map<string, any>>`: request
identity (the value of the input context's `request` field, `none` when
that field is absent) to composite key to stored result. -/
abbrev Cache := List (Option Prim × List (String × MwResult))

/-- Source `result ?? null`: the sentinel stored in the cache for void
results. -/
def orNull : MwResult → MwResult
  | .undef => .null
  | r => r

/-- Source `Middleware.execute`: without a cache-key function, just run the
step function.  With one, derive the composite key, look up the
per-request cache and return a prior entry without running the step
function; on a miss run the step function and, if it succeeds, store
`result ?? null` under the key before returning the raw result.  The
global cache is threaded explicitly; a thrown error leaves it as it
was. -/
def Middleware.execute (m : Middleware) (input : ProcedureFnArgs) (cache : Cache) :
    Except Err MwResult × Cache :=
  match m._keys with
  | none => (m._handler input, cache)
  | some keysFn =>
    match keysFn input with
    | .error e => (.error e, cache)
    | .ok ks =>
      let key := cacheKey m._id ks
      let reqv := jsLookup input.ctx "request"
      let cached := (jsLookup cache reqv).getD []
      match jsLookup cached key with
      | some v => (.ok v, cache)
      | none =>
        match m._handler input with
        | .error e => (.error e, cache)
        | .ok result =>
            (.ok result, setA cache reqv (setA cached key (orNull result)))

/-- The `_state` record of a `ProcedureBuilder` (`ProcedureArgs` plus the
optional cache-key function). -/
structure ProcedureArgs where
  params : Option TObject
  query : Option TObject
  body : Option TObject
  middlewares : List Middleware
  name : String
  keys : Option KeyFn

/-- Source `ProcedureBuilder`: an object holding a mutable `_state` reference.
Each JavaScript method is translated as a function returning its result
together with the receiver's state after the call, so that in-place
mutation of the receiver is observable. -/
structure ProcedureBuilder where
  _state : ProcedureArgs

/-- Source `Procedure` from src/src/procedure.ts. -/
structure Procedure where
  params : Option TObject
  query : Option TObject
  body : Option TObject
  middlewares : List Middleware

/-- Source `ProcedureBuilder.params`: merge the new schema into the state's
params schema and return a fresh builder via `_apply` (which copies the
state); the receiver is untouched. -/
def ProcedureBuilder.params (b : ProcedureBuilder) (p : TObject) :
    ProcedureBuilder × ProcedureBuilder :=
  (⟨{ b._state with params := some (merge b._state.params p) }⟩, b)

/-- Source `ProcedureBuilder.query`. -/
def ProcedureBuilder.query (b : ProcedureBuilder) (q : TObject) :
    ProcedureBuilder × ProcedureBuilder :=
  (⟨{ b._state with query := some (merge b._state.query q) }⟩, b)

/-- Source `ProcedureBuilder.body`. -/
def ProcedureBuilder.body (b : ProcedureBuilder) (s : TObject) :
    ProcedureBuilder × ProcedureBuilder :=
  (⟨{ b._state with body := some (merge b._state.body s) }⟩, b)

/-- Source `ProcedureBuilder.cache`. -/
def ProcedureBuilder.cache (b : ProcedureBuilder) (k : KeyFn) :
    ProcedureBuilder × ProcedureBuilder :=
  (⟨{ b._state with keys := some k }⟩, b)

/-- Source `ProcedureBuilder.build`: with a handler, wrap it as a new
`Middleware` (with a fresh random id, modelled as the explicit `freshId`
argument) and reassign `this._state.middlewares` to the extended list --
an in-place write to the receiver's state -- then construct the
`Procedure` from the state; without a handler the state is untouched. -/
def ProcedureBuilder.build (b : ProcedureBuilder) (freshId : String)
    (handler : Option StepFn) : Procedure × ProcedureBuilder :=
  match handler with
  | some h =>
    let st := { b._state with
      middlewares := b._state.middlewares ++ [⟨freshId, h, b._state.keys, b._state.name⟩] }
    (⟨st.params, st.query, st.body, st.middlewares⟩, ⟨st⟩)
  | none =>
    (⟨b._state.params, b._state.query, b._state.body, b._state.middlewares⟩, b)

/-- The `_state` record of an `ActionBuilder` (`ActionBuilderArgs`). -/
structure ActionBuilderArgs where
  params : Option TObject
  query : Option TObject
  body : Option TObject
  output : Option TObject
  middlewares : List Middleware
  name : String
  details : Option String

/-- Source `ActionBuilder` from src/src/action.ts. -/
structure ActionBuilder where
  _state : ActionBuilderArgs

/-- Source `Action` from src/src/action.ts (first version in the file). -/
structure Action where
  _handler : ActionFn
  _middlewares : List Middleware
  name : String
  details : Option String
  params : Option TObject
  query : Option TObject
  body : Option TObject
  output : Option TObject

/-- Source `Procedure.createAction`: seed an `ActionBuilder` with this
procedure's schemas, its middleware list, the given name and details and
no output schema. -/
def Procedure.createAction (p : Procedure) (name : String) (details : Option String) :
    ActionBuilder :=
  ⟨⟨p.params, p.query, p.body, none, p.middlewares, name, details⟩⟩

/-- Source `ActionBuilder.build`: construct the `Action` from the handler and
the accumulated state; the handler is stored in the `_handler` field,
separate from `_middlewares`. -/
def ActionBuilder.build (b : ActionBuilder) (handler : ActionFn) : Action :=
  ⟨handler, b._state.middlewares, b._state.name, b._state.details,
   b._state.params, b._state.query, b._state.body, b._state.output⟩

/-- Truthiness of a middleware result, as tested by `if (out)` in
`Action._execute`: objects (empty included) are truthy, `undefined` and
`null` are falsy. -/
def truthy : MwResult → Bool
  | .obj _ => true
  | _ => false

/-- The context fields of a truthy middleware result. -/
def fieldsOf : MwResult → List (String × Prim)
  | .obj fs => fs
  | _ => []

/-- The base context `\x7b request \x7d` created at the start of
`Action._execute`. -/
def baseCtx (request : Nat) : Context := [("request", Prim.pReq request)]

/-- The middleware loop of `Action._execute`: run each middleware in
order with the current context, spreading a truthy result into the
context (`ctx = \x7b...ctx, ...out\x7d`); a thrown error stops the loop and
propagates, keeping the cache state reached so far. -/
def runMiddlewares (ms : List Middleware) (params query body : Value)
    (ctx : Context) (cache : Cache) : Except Err Context × Cache :=
  match ms with
  | [] => (.ok ctx, cache)
  | m :: rest =>
    match m.execute ⟨ctx, params, query, body⟩ cache with
    | (.error e, cache') => (.error e, cache')
    | (.ok out, cache') =>
        runMiddlewares rest params query body
          (if truthy out then jsSpread ctx (fieldsOf out) else ctx) cache'

/-- The raw, unvalidated inputs handed to `run` / `handle`. -/
structure RawInput where
  params : Value
  query : Value
  body : Value

/-- The Elysia context object destructured by `Action.handle`. -/
structure HandleContext where
  request : Nat
  params : Value
  query : Value
  body : Value

/-- Source `Action._execute`: validate each input against its schema when one is
declared (`Value.Parse`), seed the context with the request, run the
middleware chain, then invoke the terminal handler with the accumulated
context.  (The `console.log`/`console.profile` calls have no modelled
effect.) -/
def Action._execute (a : Action) (request : Nat) (input : RawInput) (cache : Cache) :
    Except Err Value × Cache :=
  match parseOpt a.params input.params with
  | .error e => (.error e, cache)
  | .ok params =>
  match parseOpt a.query input.query with
  | .error e => (.error e, cache)
  | .ok query =>
  match parseOpt a.body input.body with
  | .error e => (.error e, cache)
  | .ok body =>
  match runMiddlewares a._middlewares params query body (baseCtx request) cache with
  | (.error e, cache') => (.error e, cache')
  | (.ok ctx, cache') => (a._handler ⟨ctx, params, query, body⟩, cache')

/-- Source `Action.handle`: destructure the Elysia context and delegate to
`_execute`; no output validation. -/
def Action.handle (a : Action) (context : HandleContext) (cache : Cache) :
    Except Err Value × Cache :=
  a._execute context.request ⟨context.params, context.query, context.body⟩ cache

/-- Source `Action.run`: delegate to `_execute`, then, when an output schema is
declared, `Value.Clean` the result and `Value.Assert` the cleaned value,
returning the cleaned value; otherwise return the raw result. -/
def Action.run (a : Action) (request : Nat) (input : RawInput) (cache : Cache) :
    Except Err Value × Cache :=
  match a._execute request input cache with
  | (.error e, cache') => (.error e, cache')
  | (.ok result, cache') =>
    match a.output with
    | some s =>
        let output := clean s result
        (if assert s output then .ok output else .error .validation, cache')
    | none => (.ok result, cache')

/-- Field lookup inside a `Value`. -/
def lookupField (v : Value) (k : String) : Option Prim :=
  match v with
  | .obj fs => jsLookup fs k
  | .undef => none

/-- A trivial step function contributing an empty object. -/
def step0 : StepFn := fun _ => .ok (.obj [])

/-- A fresh procedure builder, as produced by `createProcedure("P")`. -/
def pb0 : ProcedureBuilder := ⟨⟨none, none, none, [], "P", none⟩⟩

/-- A handler returning a field beyond its action's output schema. -/
def hC2 : ActionFn := fun _ => .ok (.obj [("result", .pBool true), ("extra", .pNum 1)])

/-- An action with an output schema whose handler returns an extra
field. -/
def aC2 : Action :=
  ⟨hC2, [], "A2", none, none, none, none, some ⟨[("result", FieldType.bool)], none⟩⟩

/-- Empty raw inputs. -/
def inC2 : RawInput := ⟨.undef, .undef, .undef⟩

/-- An action without an output schema. -/
def aW2 : Action := ⟨fun _ => .ok (.obj []), [], "W2", none, none, none, none, none⟩

/-- A plain object schema built without the `additionalProperties`
option. -/
def nextS : TObject := ⟨[("a", FieldType.str)], none⟩

/-- A value with a field beyond `nextS`'s declared ones. -/
def vExtra : Value := .obj [("a", .pStr "x"), ("b", .pNum 1)]

/-- The output schema of the spec's output-validation example. -/
def outS : TObject := ⟨[("result", FieldType.bool), ("count", FieldType.num)], none⟩

/-- The handler result of the spec's output-validation example. -/
def rC7 : Value :=
  .obj [("result", .pBool true), ("count", .pNum 42), ("extraField", .pStr "x")]

/-- The action of the spec's output-validation example. -/
def aC7 : Action := ⟨fun _ => .ok rC7, [], "A7", none, none, none, none, some outS⟩

/-- A middleware whose step function always throws. -/
def mFail : Middleware := ⟨"mf", fun _ => .error (.thrown "boom"), none, "F"⟩

/-- An action whose only middleware always throws. -/
def aC5 : Action := ⟨fun _ => .ok (.obj []), [mFail], "A5", none, none, none, none, none⟩

/-- The constant cache-key function `() => []`. -/
def kf0 : KeyFn := fun _ => .ok []

/-- A cached middleware contributing a context field. -/
def m4 : Middleware := ⟨"m4", fun _ => .ok (.obj [("u", .pNum 1)]), some kf0, "M4"⟩

/-- A middleware input whose context holds request number 0. -/
def input0 : ProcedureFnArgs := ⟨[("request", .pReq 0)], .undef, .undef, .undef⟩

/-- A cached middleware whose step function returns nothing. -/
def m10 : Middleware := ⟨"m10", fun _ => .ok .undef, some kf0, "M10"⟩

/-- An uncached middleware contributing a context field. -/
def mw8 : Middleware := ⟨"m8", fun _ => .ok (.obj [("u", .pNum 1)]), none, "M8"⟩

theorem jsLookup_append {κ α : Type} [DecidableEq κ] (x y : List (κ × α)) (k : κ) :
    jsLookup (x ++ y) k =
      match jsLookup x k with
      | some v => some v
      | none => jsLookup y k := by
  induction x with
  | nil => simp [jsLookup]
  | cons hd tl ih =>
    obtain ⟨k0, v0⟩ := hd
    by_cases hk : k0 = k
    · simp [jsLookup, hk]
    · simp [jsLookup, hk, ih]

theorem jsLookup_spread_map {α : Type} (a b : List (String × α)) (k : String) :
    jsLookup (a.map (fun kv =>
      match jsLookup b kv.1 with
      | some v => (kv.1, v)
      | none => kv)) k =
      match jsLookup a k with
      | some v => some ((jsLookup b k).getD v)
      | none => none := by
  induction a with
  | nil => simp [jsLookup]
  | cons hd tl ih =>
    obtain ⟨k0, v0⟩ := hd
    by_cases hk : k0 = k
    · subst hk
      cases hb : jsLookup b k0 <;> simp [jsLookup, hb]
    · cases hb : jsLookup b k0 <;> simp [jsLookup, hb, hk, ih]

theorem jsLookup_filter_of_none {α : Type} (a b : List (String × α)) (k : String)
    (h : jsLookup a k = none) :
    jsLookup (b.filter (fun kv => (jsLookup a kv.1).isNone)) k = jsLookup b k := by
  induction b with
  | nil => simp
  | cons hd tl ih =>
    obtain ⟨k0, v0⟩ := hd
    by_cases hk : k0 = k
    · subst hk
      simp [List.filter_cons, jsLookup, h]
    · cases hp : (jsLookup a k0).isNone <;>
        simp [List.filter_cons, hp, jsLookup, hk, ih]

/-- Master lemma for the object spread: looking a key up in
`jsSpread a b` gives `b`'s value when `b` has the key, `a`'s value when
only `a` has it, and nothing otherwise. -/
theorem jsLookup_jsSpread {α : Type} (a b : List (String × α)) (k : String) :
    jsLookup (jsSpread a b) k =
      match jsLookup a k with
      | some v => some ((jsLookup b k).getD v)
      | none => jsLookup b k := by
  unfold jsSpread
  rw [jsLookup_append, jsLookup_spread_map]
  cases ha : jsLookup a k with
  | some v => simp
  | none => simp [jsLookup_filter_of_none a b k ha]

theorem jsLookup_setA_self {κ α : Type} [DecidableEq κ] (l : List (κ × α)) (k : κ) (v : α) :
    jsLookup (setA l k v) k = some v := by
  induction l with
  | nil => simp [setA, jsLookup]
  | cons hd tl ih =>
    obtain ⟨k0, v0⟩ := hd
    by_cases hk : k0 = k <;> simp [setA, jsLookup, hk, ih]

theorem jsLookup_setA_ne {κ α : Type} [DecidableEq κ] (l : List (κ × α)) (k k' : κ) (v : α)
    (h : k' ≠ k) : jsLookup (setA l k v) k' = jsLookup l k' := by
  induction l with
  | nil => simp [setA, jsLookup, Ne.symm h]
  | cons hd tl ih =>
    obtain ⟨k0, v0⟩ := hd
    by_cases hk : k0 = k
    · subst hk
      simp [setA, jsLookup, Ne.symm h]
    · by_cases hk' : k0 = k' <;> simp [setA, jsLookup, hk, hk', ih, h]

/-- A key found in a filtered association list satisfies the filter. -/
theorem jsLookup_filter_pred {κ α : Type} [DecidableEq κ] (pr : κ × α → Bool)
    (l : List (κ × α)) (k : κ) (v : α)
    (h : jsLookup (l.filter pr) k = some v) : pr (k, v) = true := by
  induction l with
  | nil => simp [jsLookup] at h
  | cons hd tl ih =>
    obtain ⟨k0, v0⟩ := hd
    cases hp : pr (k0, v0) with
    | true =>
      rw [List.filter_cons] at h
      simp [hp, jsLookup] at h
      by_cases hk : k0 = k
      · subst hk
        simp at h
        subst h
        exact hp
      · simp [hk] at h
        exact ih h
    | false =>
      rw [List.filter_cons] at h
      simp [hp] at h
      exact ih h

/-- Case split on `Middleware.execute`: either the cache came through
unchanged, or the call succeeded. -/
theorem Middleware.execute_cases (m : Middleware) (input : ProcedureFnArgs)
    (cache : Cache) :
    (m.execute input cache).2 = cache ∨ ∃ r, (m.execute input cache).1 = Except.ok r := by
  unfold Middleware.execute
  cases m._keys with
  | none => left; rfl
  | some kf =>
    dsimp only
    cases kf input with
    | error e => left; rfl
    | ok ks =>
      dsimp only
      cases jsLookup ((jsLookup cache (jsLookup input.ctx "request")).getD [])
          (cacheKey m._id ks) with
      | some v => right; exact ⟨v, rfl⟩
      | none =>
        dsimp only
        cases m._handler input with
        | error e => left; rfl
        | ok r => right; exact ⟨r, rfl⟩

/-- A failing `Middleware.execute` leaves the cache exactly as it was:
nothing is stored for a failed invocation. -/
theorem Middleware.execute_error_frame (m : Middleware) (input : ProcedureFnArgs)
    (cache : Cache) (e : Err)
    (h : (m.execute input cache).1 = .error e) : (m.execute input cache).2 = cache := by
  rcases Middleware.execute_cases m input cache with hc | ⟨r, hr⟩
  · exact hc
  · rw [h] at hr
    simp at hr

/-- Running a concatenation of middleware lists runs the first list and,
if it succeeds, continues with the second from the reached state. -/
theorem runMiddlewares_append (xs ys : List Middleware) (p q b : Value)
    (ctx : Context) (cache : Cache) :
    runMiddlewares (xs ++ ys) p q b ctx cache =
      match runMiddlewares xs p q b ctx cache with
      | (.ok ctx', c') => runMiddlewares ys p q b ctx' c'
      | (.error e, c') => (.error e, c') := by
  induction xs generalizing ctx cache with
  | nil => simp [runMiddlewares]
  | cons m tl ih =>
    simp only [List.cons_append, runMiddlewares]
    cases hm : m.execute ⟨ctx, p, q, b⟩ cache with
    | mk r c' =>
      cases r with
      | error e => simp
      | ok out => simp [ih]

/-- Unfolding the middleware loop on a failing head middleware. -/
theorem runMiddlewares_cons_error (m : Middleware) (rest : List Middleware)
    (p q b : Value) (ctx : Context) (cache : Cache) (e : Err) (c' : Cache)
    (h : m.execute ⟨ctx, p, q, b⟩ cache = (.error e, c')) :
    runMiddlewares (m :: rest) p q b ctx cache = (.error e, c') := by
  simp only [runMiddlewares]
  rw [h]

/-- The middleware loop never loses a context key. -/
theorem runMiddlewares_mono (ms : List Middleware) (p q b : Value) :
    ∀ (ctx : Context) (cache : Cache) (ctx' : Context) (cache' : Cache),
      runMiddlewares ms p q b ctx cache = (.ok ctx', cache') →
      ∀ k, (jsLookup ctx k).isSome → (jsLookup ctx' k).isSome := by
  induction ms with
  | nil =>
    intro ctx cache ctx' cache' hrun k hk
    simp [runMiddlewares] at hrun
    rw [← hrun.1]
    exact hk
  | cons m tl ih =>
    intro ctx cache ctx' cache' hrun k hk
    simp only [runMiddlewares] at hrun
    cases hm : m.execute ⟨ctx, p, q, b⟩ cache with
    | mk r c' =>
      rw [hm] at hrun
      cases r with
      | error e => simp at hrun
      | ok out =>
        simp only at hrun
        refine ih _ _ _ _ hrun k ?_
        cases ht : truthy out
        · simpa [ht] using hk
        · simp only [ht, if_pos]
          rw [jsLookup_jsSpread]
          cases hc : jsLookup ctx k with
          | some v => simp
          | none => rw [hc] at hk; simp at hk

/-- C1: the claim (and `merge`'s own doc comment) says `next`'s field
definition wins on a name collision.  The runtime spreads
`next.properties` first and `prev.properties` last, so `prev`'s
definition wins: merging `prev = Type.Object(id: String)` with
`next = Type.Object(id: Number)` keeps `id: String`. -/
theorem merge_keeps_prev_field_on_collision :
    merge (some ⟨[("id", FieldType.str)], none⟩) ⟨[("id", FieldType.num)], none⟩
      = ⟨[("id", FieldType.str)], some false⟩ := by decide

/-- C2 counterexample: `run` and `handle` do not produce the same result
on every request — with an output schema declared, `run` cleans and
validates the handler result while `handle` returns it raw, so the
caller of `handle` sees the extra field `run` strips. -/
theorem run_and_handle_disagree : aC2.run 0 inC2 [] ≠ aC2.handle ⟨0, .undef, .undef, .undef⟩ [] := by
  decide

/-- C2 amended: `run` and `handle` share the same underlying pipeline
`_execute` (same input validation, same middleware chain, same handler),
and they agree whenever no output schema is declared or the pipeline
fails; `run` alone additionally performs output validation. -/
theorem run_refines_handle (a : Action) (req : Nat) (input : RawInput) (cache : Cache) :
    a.handle ⟨req, input.params, input.query, input.body⟩ cache = a._execute req input cache
    ∧ (a.output = none →
        a.run req input cache = a.handle ⟨req, input.params, input.query, input.body⟩ cache)
    ∧ (∀ e c, a._execute req input cache = (.error e, c) →
        a.run req input cache = a.handle ⟨req, input.params, input.query, input.body⟩ cache) := by
  refine ⟨rfl, ?_, ?_⟩
  · intro hout
    show a.run req input cache = a._execute req input cache
    unfold Action.run
    cases hex : a._execute req input cache with
    | mk r c =>
      cases r with
      | error e => rfl
      | ok rr => simp [hout]
  · intro e c hex
    show a.run req input cache = a._execute req input cache
    unfold Action.run
    rw [hex]

/-- C2 witness for the amended theorem, on an action without an output
schema. -/
theorem run_refines_handle_witness :
    aW2.run 0 ⟨.undef, .undef, .undef⟩ [] = aW2.handle ⟨0, .undef, .undef, .undef⟩ [] :=
  (run_refines_handle aW2 0 ⟨.undef, .undef, .undef⟩ []).2.1 rfl

/-- C3 counterexample: `build` with a handler does NOT leave the receiving
builder's state unchanged — it reassigns `this._state.middlewares` — and
the second of two procedures built from the same builder accumulates the
first build's middleware (its chain has length 2, not 1). -/
theorem build_mutates_receiver :
    (pb0.build "m1" (some step0)).2 ≠ pb0
    ∧ ((pb0.build "m1" (some step0)).2.build "m2" (some step0)).1.middlewares.length = 2 := by
  constructor
  · intro h
    have h2 := congrArg (fun x => x._state.middlewares.length) h
    simp [pb0, ProcedureBuilder.build] at h2
  · rfl

/-- C3 amended: the mutators `params`, `query`, `body` and `cache` each
return a new builder and leave the receiver's state unchanged (so
forking through them is safe), and so does `build` without a handler;
`build` with a handler appends the new middleware to the receiving
builder's own state in place, so the built procedure and the updated
receiver both carry the appended middleware. -/
theorem builder_methods_frame (b : ProcedureBuilder) (s : TObject) (k : KeyFn)
    (i : String) (h : StepFn) :
    (b.params s).2 = b ∧ (b.query s).2 = b ∧ (b.body s).2 = b ∧ (b.cache k).2 = b
    ∧ (b.build i none).2 = b
    ∧ (b.build i (some h)).2._state.middlewares
        = b._state.middlewares ++ [⟨i, h, b._state.keys, b._state.name⟩]
    ∧ (b.build i (some h)).1.middlewares
        = b._state.middlewares ++ [⟨i, h, b._state.keys, b._state.name⟩] :=
  ⟨rfl, rfl, rfl, rfl, rfl, rfl, rfl⟩

/-- C4: with a cache-key function configured, a prior cache entry for the
derived composite key is returned as is, without running the step
function (any step function gives the same call result) and without
touching the cache; on a miss the step function runs and its result is
stored under the composite key in this request's cache; the cache of
every other request identity is left untouched. -/
theorem middleware_execute_memoizes
    (m : Middleware) (input : ProcedureFnArgs) (cache : Cache) (kf : KeyFn)
    (ks : List String)
    (hkeys : m._keys = some kf)
    (hks : kf input = Except.ok ks) :
    (∀ v, jsLookup ((jsLookup cache (jsLookup input.ctx "request")).getD [])
        (cacheKey m._id ks) = some v →
      ∀ h : StepFn,
        Middleware.execute ⟨m._id, h, m._keys, m.name⟩ input cache = (Except.ok v, cache))
    ∧ (jsLookup ((jsLookup cache (jsLookup input.ctx "request")).getD [])
        (cacheKey m._id ks) = none →
       ∀ r, m._handler input = Except.ok r →
         m.execute input cache
           = (Except.ok r,
              setA cache (jsLookup input.ctx "request")
                (setA ((jsLookup cache (jsLookup input.ctx "request")).getD [])
                  (cacheKey m._id ks) (orNull r))))
    ∧ (∀ qk, qk ≠ jsLookup input.ctx "request" →
        jsLookup (m.execute input cache).2 qk = jsLookup cache qk) := by
  refine ⟨?_, ?_, ?_⟩
  · intro v hv h
    simp [Middleware.execute, hkeys, hks, hv]
  · intro hnone r hr
    simp [Middleware.execute, hkeys, hks, hnone, hr]
  · intro qk hqk
    cases hhit : jsLookup ((jsLookup cache (jsLookup input.ctx "request")).getD [])
        (cacheKey m._id ks) with
    | some v => simp [Middleware.execute, hkeys, hks, hhit]
    | none =>
      cases hh : m._handler input with
      | error e => simp [Middleware.execute, hkeys, hks, hhit, hh]
      | ok r =>
        simp [Middleware.execute, hkeys, hks, hhit, hh,
          jsLookup_setA_ne _ _ _ _ hqk]

/-- C4 witness: a concrete cached middleware on an empty cache (miss) --
the result is stored -- and the conclusion's hit clause applies to the
populated cache. -/
theorem middleware_execute_memoizes_witness :
    (∀ v, jsLookup ((jsLookup ([] : Cache) (jsLookup input0.ctx "request")).getD [])
        (cacheKey m4._id []) = some v →
      ∀ h : StepFn,
        Middleware.execute ⟨m4._id, h, m4._keys, m4.name⟩ input0 [] = (Except.ok v, []))
    ∧ (jsLookup ((jsLookup ([] : Cache) (jsLookup input0.ctx "request")).getD [])
        (cacheKey m4._id []) = none →
       ∀ r, m4._handler input0 = Except.ok r →
         m4.execute input0 []
           = (Except.ok r,
              setA [] (jsLookup input0.ctx "request")
                (setA ((jsLookup ([] : Cache) (jsLookup input0.ctx "request")).getD [])
                  (cacheKey m4._id []) (orNull r))))
    ∧ (∀ qk, qk ≠ jsLookup input0.ctx "request" →
        jsLookup (m4.execute input0 []).2 qk = jsLookup ([] : Cache) qk) :=
  middleware_execute_memoizes m4 input0 [] kf0 [] rfl rfl

/-- C5: when a middleware's step function throws, the invocation rejects
with exactly that failure, every later middleware and the terminal
handler are skipped (the outcome does not depend on them), and nothing
is stored in the cache by the failing middleware. -/
theorem middleware_failure_aborts
    (a : Action) (req : Nat) (input : RawInput) (cache : Cache)
    (p q b : Value) (pre post : List Middleware) (m : Middleware)
    (ctxI : Context) (cacheI : Cache) (e : Err)
    (hmw : a._middlewares = pre ++ m :: post)
    (hp : parseOpt a.params input.params = .ok p)
    (hq : parseOpt a.query input.query = .ok q)
    (hb : parseOpt a.body input.body = .ok b)
    (hpre : runMiddlewares pre p q b (baseCtx req) cache = (.ok ctxI, cacheI))
    (hfail : (m.execute ⟨ctxI, p, q, b⟩ cacheI).1 = .error e) :
    a._execute req input cache = (.error e, cacheI)
    ∧ (m.execute ⟨ctxI, p, q, b⟩ cacheI).2 = cacheI := by
  have hframe := Middleware.execute_error_frame m ⟨ctxI, p, q, b⟩ cacheI e hfail
  have hm : m.execute ⟨ctxI, p, q, b⟩ cacheI = (Except.error e, cacheI) := by
    cases hres : m.execute ⟨ctxI, p, q, b⟩ cacheI with
    | mk r c2 =>
      rw [hres] at hfail hframe
      simp only at hfail hframe
      rw [hfail, hframe]
  refine ⟨?_, hframe⟩
  unfold Action._execute
  rw [hp]
  dsimp only
  rw [hq]
  dsimp only
  rw [hb]
  dsimp only
  rw [hmw, runMiddlewares_append, hpre]
  dsimp only
  rw [runMiddlewares_cons_error m post p q b ctxI cacheI e cacheI hm]

/-- C5 witness: an action whose single middleware always throws rejects
with that error and caches nothing. -/
theorem middleware_failure_aborts_witness :
    aC5._execute 0 inC2 [] = (.error (.thrown "boom"), [])
    ∧ (mFail.execute ⟨baseCtx 0, .undef, .undef, .undef⟩ []).2 = ([] : Cache) :=
  middleware_failure_aborts aC5 0 inC2 [] .undef .undef .undef [] [] mFail
    (baseCtx 0) [] (.thrown "boom") rfl rfl rfl rfl rfl rfl

/-- C6: the action built by `P.createAction(n).build(h)` carries exactly
P's middleware sequence, and `h` is stored as the separate terminal
handler, not appended to that sequence. -/
theorem createAction_build_preserves_chain (p : Procedure) (n : String)
    (d : Option String) (h : ActionFn) :
    ((p.createAction n d).build h)._middlewares = p.middlewares
    ∧ ((p.createAction n d).build h)._handler = h :=
  ⟨rfl, rfl⟩

/-- C7: with an output schema declared, `run` returns the handler result
cleaned against the schema when the cleaned value validates and rejects
otherwise; every field of the returned value is declared in the schema;
without an output schema `run` returns the raw result unchanged. -/
theorem run_output_validation
    (a : Action) (req : Nat) (input : RawInput) (cache : Cache)
    (s : TObject) (r : Value) (c : Cache)
    (hout : a.output = some s)
    (hex : a._execute req input cache = (.ok r, c)) :
    a.run req input cache
      = ((if assert s (clean s r) then Except.ok (clean s r)
          else Except.error Err.validation), c)
    ∧ (∀ k, (lookupField (clean s r) k).isSome → (jsLookup s.properties k).isSome)
    ∧ (∀ a' : Action, a'.output = none →
        a'.run req input cache = a'._execute req input cache) := by
  refine ⟨?_, ?_, ?_⟩
  · unfold Action.run
    rw [hex]
    dsimp only
    rw [hout]
  · intro k hk
    cases r with
    | undef => simp [clean, lookupField] at hk
    | obj fs =>
      simp only [clean, lookupField] at hk
      obtain ⟨v, hv⟩ := Option.isSome_iff_exists.mp hk
      have hpred := jsLookup_filter_pred _ fs k v hv
      simpa using hpred
  · intro a' h'
    unfold Action.run
    cases hex' : a'._execute req input cache with
    | mk rr c' =>
      cases rr with
      | error e => rfl
      | ok rrr => simp [h']

/-- C7 witness: the spec's example — handler result
`(result: true, count: 42, extraField: "x")` against output schema
`(result: boolean, count: number)`. -/
theorem run_output_validation_witness :
    aC7.run 0 inC2 []
      = ((if assert outS (clean outS rC7) then Except.ok (clean outS rC7)
          else Except.error Err.validation), ([] : Cache)) :=
  (run_output_validation aC7 0 inC2 [] outS rC7 [] rfl rfl).1

/-- C8: the running context grows monotonically — a successful middleware
chain keeps every key of the initial context, each single merge of a
middleware result keeps every key present before the merge, and on a key
collision the later-contributed field (the middleware result's) wins. -/
theorem context_accumulation_monotone
    (ms : List Middleware) (p q b : Value) (ctx ctx' : Context)
    (cache cache' : Cache)
    (hrun : runMiddlewares ms p q b ctx cache = (.ok ctx', cache')) :
    (∀ k, (jsLookup ctx k).isSome → (jsLookup ctx' k).isSome)
    ∧ (∀ (c out : Context) (k : String) (v : Prim),
        jsLookup out k = some v → jsLookup (jsSpread c out) k = some v)
    ∧ (∀ (c out : Context) (k : String),
        (jsLookup c k).isSome → (jsLookup (jsSpread c out) k).isSome) := by
  refine ⟨runMiddlewares_mono ms p q b ctx cache ctx' cache' hrun, ?_, ?_⟩
  · intro c out k v hv
    rw [jsLookup_jsSpread]
    cases hc : jsLookup c k with
    | some w => simp [hv]
    | none => simp [hv]
  · intro c out k hk
    rw [jsLookup_jsSpread]
    cases hc : jsLookup c k with
    | some w => simp
    | none => rw [hc] at hk; simp at hk

/-- C8 witness: a one-middleware chain starting from the base context. -/
theorem context_accumulation_monotone_witness :
    (∀ k, (jsLookup (baseCtx 0) k).isSome →
      (jsLookup (jsSpread (baseCtx 0) [("u", Prim.pNum 1)]) k).isSome)
    ∧ (∀ (c out : Context) (k : String) (v : Prim),
        jsLookup out k = some v → jsLookup (jsSpread c out) k = some v)
    ∧ (∀ (c out : Context) (k : String),
        (jsLookup c k).isSome → (jsLookup (jsSpread c out) k).isSome) :=
  context_accumulation_monotone [mw8] .undef .undef .undef (baseCtx 0)
    (jsSpread (baseCtx 0) [("u", Prim.pNum 1)]) [] [] rfl

/-- C9 counterexample: `merge(undefined, next)` is neither `next` itself
nor equivalent to it — the returned schema carries
`additionalProperties: false`, so a raw value with an undeclared field
that `next` accepts is rejected by the returned schema. -/
theorem merge_none_not_identity :
    merge none nextS ≠ nextS
    ∧ assert nextS vExtra = true
    ∧ assert (merge none nextS) vExtra = false := by
  decide

/-- C9 amended: `merge(undefined, next)` returns a new schema with
exactly `next`'s property list but with `additionalProperties` forced to
`false`; it equals `next` exactly when `next` itself already carries
`additionalProperties: false`. -/
theorem merge_none_forces_additional (next : TObject) :
    merge none next = ⟨next.properties, some false⟩
    ∧ (next.additional = some false → merge none next = next) := by
  have hprops : merge none next = ⟨next.properties, some false⟩ := by
    unfold merge jsSpread
    simp [jsLookup]
  refine ⟨hprops, ?_⟩
  intro h
  rw [hprops]
  cases next with
  | mk props addl =>
    simp only at h
    rw [h]

/-- C9 witness for the amended theorem: a schema already carrying
`additionalProperties: false` passes through unchanged. -/
theorem merge_none_forces_additional_witness :
    merge none ⟨[("a", FieldType.str)], some false⟩
      = (⟨[("a", FieldType.str)], some false⟩ : TObject) :=
  (merge_none_forces_additional ⟨[("a", FieldType.str)], some false⟩).2 rfl

/-- C10: a cached middleware whose step function returns nothing yields
`undefined` on its first execution, but stores the sentinel `null` and
returns that `null` to the caller of every later execution with the same
request and key — cached and uncached invocations are distinguishable. -/
theorem void_result_cached_as_null
    (m : Middleware) (input : ProcedureFnArgs) (cache : Cache) (kf : KeyFn)
    (ks : List String)
    (hkeys : m._keys = some kf)
    (hks : kf input = Except.ok ks)
    (hmiss : jsLookup ((jsLookup cache (jsLookup input.ctx "request")).getD [])
      (cacheKey m._id ks) = none)
    (hvoid : m._handler input = Except.ok MwResult.undef) :
    (m.execute input cache).1 = Except.ok MwResult.undef
    ∧ m.execute input (m.execute input cache).2
        = (Except.ok MwResult.null, (m.execute input cache).2) := by
  have h1 : m.execute input cache
      = (Except.ok MwResult.undef,
         setA cache (jsLookup input.ctx "request")
           (setA ((jsLookup cache (jsLookup input.ctx "request")).getD [])
             (cacheKey m._id ks) MwResult.null)) := by
    simp [Middleware.execute, hkeys, hks, hmiss, hvoid, orNull]
  rw [h1]
  refine ⟨rfl, ?_⟩
  simp [Middleware.execute, hkeys, hks, jsLookup_setA_self]

/-- C10 witness: a concrete void cached middleware on the empty cache. -/
theorem void_result_cached_as_null_witness :
    (m10.execute input0 []).1 = Except.ok MwResult.undef
    ∧ m10.execute input0 (m10.execute input0 []).2
        = (Except.ok MwResult.null, (m10.execute input0 []).2) :=
  void_result_cached_as_null m10 input0 [] kf0 [] rfl rfl rfl rfl

end Elysia
